import Mathlib

/-!
# Verification of the court-decision scraping pipeline

A shallow embedding of the repository's Python source
(`src/utils.py`, `src/scripts/prepare_search.py`,
`src/scripts/process_download.py`) into Lean 4, together with proofs
settling the frozen claims about it.

Conventions of the embedding:
* Python strings are Lean `String` / `List Char`.  The character classes
  of Python's `re` module (`\w`, `\s`) and `str.lower` are modelled
  exactly on ASCII, and additionally on the non-ASCII code points the
  development traces (U+0130, whose `str.lower` expands to `"i"` plus the
  combining mark U+0307 — the case that defeats idempotence of
  `sanitize_filename`); non-ASCII characters outside that fragment are
  treated as non-word and case-invariant.
* Machine-level I/O (the HTTP session, the filesystem) is made explicit:
  the downloader takes a `DownloadEnv` describing the network outcome and a
  filesystem state; the document-processing pipelines take a download
  oracle `dl : String → String → Bool × Nat` mapping (url, dest path) to
  the (success, size) pair that `download_file` would return.
* Fallible Python code (uncaught exceptions) is modelled with `Option` /
  `Except`.
-/

set_option maxRecDepth 10000

namespace WebScraping

/-! ## Decimal rendering (Python `str` / format specs, for `Nat` and `Int`) -/

def digitChar (n : Nat) : Char := Char.ofNat (48 + n)

/-- Decimal digits of `n`, most significant first, with structural fuel
(`fuel ≥ n` suffices, since `n / 10 < n` for `n ≥ 10`). -/
def natToDecFuel : Nat → Nat → List Char
  | 0, n => [digitChar n]
  | fuel + 1, n =>
    if n < 10 then [digitChar n]
    else natToDecFuel fuel (n / 10) ++ [digitChar (n % 10)]

/-- Decimal digits of `n`, most significant first (`str(n)` for a `Nat`). -/
def natToDec (n : Nat) : List Char := natToDecFuel n n

/-- Python `str(n)` for a natural number. -/
def pyNat (n : Nat) : String := ⟨natToDec n⟩

/-- Python `str(i)` for an integer. -/
def pyInt (i : Int) : String :=
  match i with
  | Int.ofNat n => pyNat n
  | Int.negSucc n => "-" ++ pyNat (n + 1)

/-- Left-pad a digit list with `0` to width `w` (Python `f"{n:0wd}"`). -/
def padLeft (w : Nat) (l : List Char) : List Char :=
  List.replicate (w - l.length) '0' ++ l

def pad2 (n : Nat) : String := ⟨padLeft 2 (natToDec n)⟩
def pad4 (n : Nat) : String := ⟨padLeft 4 (natToDec n)⟩
def pad6 (n : Nat) : String := ⟨padLeft 6 (natToDec n)⟩

/-! ## `sanitize_filename` (src/utils.py lines 12–15, identical copies in
src/scripts/process_download.py lines 42–46 and src/scraper.py lines 23–26)

```python
def sanitize_filename(s):
    s = re.sub(r"[^\w\s-]", "", s)
    s = re.sub(r"\s+", "_", s)
    return s.lower()
```
-/

/-- ASCII digit test (`0`–`9`), the ASCII model of Python's `\d`. -/
def isDigitB (c : Char) : Bool := 48 ≤ c.toNat && c.toNat ≤ 57

/-- Model of Python's Unicode-default `\w` character class: exact on
ASCII (letters, digits, underscore), extended with the non-ASCII code
points this development traces — U+0130 (LATIN CAPITAL LETTER I WITH DOT
ABOVE) is alphabetic, so it matches `\w`, while U+0307 (COMBINING DOT
ABOVE) is a combining mark, not alphanumeric, so it does not.  Other
non-ASCII characters are outside the modelled fragment and treated as
non-word. -/
def isWordChar (c : Char) : Bool :=
  (65 ≤ c.toNat && c.toNat ≤ 90) || (97 ≤ c.toNat && c.toNat ≤ 122) ||
    isDigitB c || c.toNat = 95 || c.toNat = 304

/-- ASCII model of Python's `\s` character class:
space, `\t`, `\n`, `\v`, `\f`, `\r`. -/
def isSpaceChar (c : Char) : Bool :=
  c.toNat = 32 || (9 ≤ c.toNat && c.toNat ≤ 13)

/-- Characters surviving `re.sub(r"[^\w\s-]", "", s)`. -/
def keepChar (c : Char) : Bool := isWordChar c || isSpaceChar c || c.toNat = 45

/-- Model of `str.lower` for one character, returned as a character list
because Python lowercasing can expand a character: exact on ASCII; on the
traced non-ASCII fragment, U+0130 lowers to `"i"` followed by U+0307
(Unicode SpecialCasing, as CPython's `str.lower` implements it); other
characters are returned unchanged. -/
def lowerChar (c : Char) : List Char :=
  if 65 ≤ c.toNat ∧ c.toNat ≤ 90 then [Char.ofNat (c.toNat + 32)]
  else if c.toNat = 304 then [Char.ofNat 105, Char.ofNat 775]
  else [c]

/-- `re.sub(r"\s+", "_", s)`, one pass: the flag records whether we are
inside a whitespace run (only the run's first character emits `_`). -/
def collapseGo : Bool → List Char → List Char
  | _, [] => []
  | inRun, c :: rest =>
    if isSpaceChar c then
      if inRun then collapseGo true rest
      else '_' :: collapseGo true rest
    else c :: collapseGo false rest

/-- `re.sub(r"\s+", "_", s)`: each maximal run of whitespace becomes one `_`. -/
def collapseWs (l : List Char) : List Char := collapseGo false l

def sanitize_filename (s : String) : String :=
  ⟨(collapseWs (s.data.filter keepChar)).flatMap lowerChar⟩

/-! ## `parse_ms_date` (src/utils.py lines 55–63, identical copy in
src/scripts/process_download.py lines 49–59)

```python
def parse_ms_date(ms_date: str) -> str:
    if not ms_date:
        return ""
    match = re.search(r"/Date\((\d+)\)/", ms_date)
    if not match:
        return ""
    ts = int(match.group(1)) / 1000
    return datetime.utcfromtimestamp(ts).strftime("%Y-%m-%d")
```

Scope of the model: `\d` is modelled as the ASCII digits (the only digits
the remote API's marker carries), and `utcfromtimestamp` is totalized —
CPython raises for timestamps outside the platform's representable range,
which the callers' blanket `except` turns into a skipped record; the
judged claims only concern in-range inputs and the empty/no-match cases,
where model and source agree. -/

/-- Strip a literal prefix from a character list, or fail. -/
def stripLit : List Char → List Char → Option (List Char)
  | [], l => some l
  | _ :: _, [] => none
  | p :: ps, c :: cs => if p = c then stripLit ps cs else none

/-- Try to match the regex `/Date\((\d+)\)/` anchored at the head of `l`,
returning the captured digit group.  Since `\d+` is greedy and a digit can
never be `)`, maximal munch is exact. -/
def dateMarkerAt (l : List Char) : Option (List Char) :=
  match stripLit "/Date(".data l with
  | none => none
  | some rest =>
    let ds := rest.takeWhile isDigitB
    if ds.isEmpty then none
    else
      match stripLit ")/".data (rest.dropWhile isDigitB) with
      | some _ => some ds
      | none => none

/-- `re.search(r"/Date\((\d+)\)/", s)`: leftmost match, scanning every
start position. -/
def searchDateMarker : List Char → Option (List Char)
  | [] => none
  | c :: rest =>
    match dateMarkerAt (c :: rest) with
    | some ds => some ds
    | none => searchDateMarker rest

/-- Numeric value of a digit string, most significant first. -/
def digitsVal (l : List Char) : Nat :=
  l.foldl (fun acc c => 10 * acc + (c.toNat - 48)) 0

/-- Proleptic-Gregorian civil date from days since the Unix epoch
(Howard Hinnant's `civil_from_days`, specialised to non-negative days,
which is all `\d+` can produce).  Models
`datetime.utcfromtimestamp(ts).date()`. -/
def daysToCivil (days : Nat) : Nat × Nat × Nat :=
  let z := days + 719468
  let era := z / 146097
  let doe := z % 146097
  let yoe := (doe - doe / 1460 + doe / 36524 - doe / 146096) / 365
  let doy := doe - (365 * yoe + yoe / 4 - yoe / 100)
  let mp := (5 * doy + 2) / 153
  let d := doy - (153 * mp + 2) / 5 + 1
  let m := if mp < 10 then mp + 3 else mp - 9
  let y := yoe + era * 400 + (if m ≤ 2 then 1 else 0)
  (y, m, d)

/-- `datetime.utcfromtimestamp(ts).strftime("%Y-%m-%d")` for a
non-negative integer-second timestamp. -/
def formatUtcDate (ts : Nat) : String :=
  let c := daysToCivil (ts / 86400)
  pad4 c.1 ++ "-" ++ pad2 c.2.1 ++ "-" ++ pad2 c.2.2

def parse_ms_date (ms_date : String) : String :=
  if ms_date = "" then ""
  else
    match searchDateMarker ms_date.data with
    | none => ""
    | some ds => formatUtcDate (digitsVal ds / 1000)

/-! ## Type-code → extension maps

`get_file_extension` (src/scripts/process_download.py lines 36–39) and
`determine_ext` (src/utils.py lines 80–85).  `doc.get("TypeCode")` may be
`None`, hence the `Option Int` argument.

```python
def get_file_extension(file_type: int) -> str:
    extension_map = {2: "pdf", 4: "pdf", 3: "docx"}
    return extension_map.get(file_type, "txt")

def determine_ext(type_code):
    if type_code==4 or type_code==2:
        return "pdf"
    if type_code==3:
        return "docx"
    return "txt"
```
-/

def get_file_extension (file_type : Option Int) : String :=
  if file_type = some 2 then "pdf"
  else if file_type = some 4 then "pdf"
  else if file_type = some 3 then "docx"
  else "txt"

def determine_ext (type_code : Option Int) : String :=
  if type_code = some 4 ∨ type_code = some 2 then "pdf"
  else if type_code = some 3 then "docx"
  else "txt"

/-! ## `urllib.parse.urlencode` and `build_download_url`

`build_download_url` (src/scripts/process_download.py lines 82–85,
identical copy in src/utils.py lines 66–77):

```python
def build_download_url(base_url: str, path: str, filename: str, file_type: int) -> str:
    params = {"path": path, "fileName": filename, "type": file_type}
    return f"{base_url}/Home/Download?{urlencode(params)}"
```

`urlencode` quotes each key and value with `quote_plus`: UTF-8 bytes,
ASCII alphanumerics and `_ . - ~` kept, space → `+`, all else `%HH`.
-/

/-- UTF-8 bytes of one character (values < 256). -/
def utf8Bytes (c : Char) : List Nat :=
  let n := c.toNat
  if n < 128 then [n]
  else if n < 2048 then [192 + n / 64, 128 + n % 64]
  else if n < 65536 then [224 + n / 4096, 128 + n / 64 % 64, 128 + n % 64]
  else [240 + n / 262144, 128 + n / 4096 % 64, 128 + n / 64 % 64, 128 + n % 64]

def hexDigitU (n : Nat) : Char :=
  if n < 10 then Char.ofNat (48 + n) else Char.ofNat (55 + n)

/-- Bytes left unescaped by `quote_plus`: ASCII alphanumerics and
`_ . - ~` (Python's `_ALWAYS_SAFE` with `safe=''`). -/
def safeByte (b : Nat) : Bool :=
  (48 ≤ b && b ≤ 57) || (65 ≤ b && b ≤ 90) || (97 ≤ b && b ≤ 122) ||
    b = 45 || b = 46 || b = 95 || b = 126

def quoteByte (b : Nat) : List Char :=
  if safeByte b then [Char.ofNat b]
  else if b = 32 then ['+']
  else ['%', hexDigitU (b / 16), hexDigitU (b % 16)]

/-- `urllib.parse.quote_plus` over a UTF-8 string. -/
def quote_plus (s : String) : String :=
  ⟨(s.data.flatMap utf8Bytes).flatMap quoteByte⟩

/-- `urllib.parse.urlencode` over an ordered mapping whose values are
already rendered with `str`. -/
def urlencode (params : List (String × String)) : String :=
  String.intercalate "&"
    (params.map (fun p => quote_plus p.1 ++ "=" ++ quote_plus p.2))

def build_download_url (base_url path file_name : String) (type_code : Int) : String :=
  base_url ++ "/Home/Download?" ++
    urlencode [("path", path), ("fileName", file_name), ("type", pyInt type_code)]

/-! ## JSON values -/

/-- A JSON value; objects keep field order, `lookup` finds the first match
(Python `dict` keys are unique, so this is exact). -/
inductive Json : Type where
  | null : Json
  | bool : Bool → Json
  | int : Int → Json
  | str : String → Json
  | arr : List Json → Json
  | obj : List (String × Json) → Json

/-- `d.get(k)` on an object's field list. -/
def jlookup : List (String × Json) → String → Option Json
  | [], _ => none
  | (k, v) :: rest, key => if k = key then some v else jlookup rest key

/-- `d.get(k, default)`. -/
def jlookupD (kvs : List (String × Json)) (key : String) (dflt : Json) : Json :=
  (jlookup kvs key).getD dflt

/-- Field access on a JSON object (`none` on non-objects). -/
def jget (j : Json) (key : String) : Option Json :=
  match j with
  | Json.obj kvs => jlookup kvs key
  | _ => none

/-! ## `datetime.isoformat` and the search payload builder
(src/scripts/prepare_search.py lines 8–61)

`prepare_search_payload(start_date, end_date)` returns a fixed dictionary
whose only input-dependent fields are `PublishFrom` / `PublishTo`, set to
`date.isoformat() + "Z"`.  The datetimes are naive (parsed from
`YYYY-MM-DD` strings by the CLI), so `isoformat` renders
`YYYY-MM-DDTHH:MM:SS`, plus `.ffffff` when microseconds are nonzero.
-/

structure PyDatetime : Type where
  year : Nat
  month : Nat
  day : Nat
  hour : Nat
  minute : Nat
  second : Nat
  microsecond : Nat
  deriving DecidableEq

def isoformat (d : PyDatetime) : String :=
  pad4 d.year ++ "-" ++ pad2 d.month ++ "-" ++ pad2 d.day ++ "T" ++
    pad2 d.hour ++ ":" ++ pad2 d.minute ++ ":" ++ pad2 d.second ++
    (if d.microsecond = 0 then "" else "." ++ pad6 d.microsecond)

/-- One of the static operator objects (`SearchText` / `Parties` /
`Counsel` entries). -/
def operatorObj (textOperator : Int) : Json :=
  Json.obj
    [("Text", Json.str ""), ("textOperator", Json.int textOperator),
     ("option", Json.str "2"), ("Inverted", Json.bool false),
     ("Synonym", Json.bool false), ("NearDistance", Json.int 3),
     ("MatchOrder", Json.bool false)]

def prepare_search_payload (start_date end_date : PyDatetime) : Json :=
  Json.obj
    [("document", Json.obj
      [("PublishFrom", Json.str (isoformat start_date ++ "Z")),
       ("PublishTo", Json.str (isoformat end_date ++ "Z")),
       ("dateType", Json.int 2),
       ("publishDate", Json.int 8),
       ("translationDateType", Json.int 1),
       ("translationPublishFrom", Json.str "2025-10-24T17:21:39.185Z"),
       ("translationPublishTo", Json.str "2025-11-24T17:21:39.185Z"),
       ("translationPublishDate", Json.int 8),
       ("SearchText", Json.arr [operatorObj 1]),
       ("Parties", Json.arr [operatorObj 2]),
       ("Counsel", Json.arr [operatorObj 2]),
       ("AllSubjects", Json.arr [Json.obj
         [("Subject", Json.null), ("SubSubject", Json.null),
          ("SubSubSubject", Json.null)]]),
       ("Old", Json.bool false),
       ("JudgesOperator", Json.int 2),
       ("OldMainNumFormat", Json.bool false)]),
     ("lan", Json.str "2")]

/-! ## `search_documents` (src/scripts/prepare_search.py lines 64–95)

```python
try:
    response = session.post(search_url, json=payload, timeout=30)
    response.raise_for_status()
    results = response.json()
    documents = results.get("data", [])
    return documents
except requests.RequestException as e:
    return []
except json.JSONDecodeError:
    return []
```

The network is abstracted into a `PostOutcome`: either the POST raised a
`requests.RequestException` (connection error / timeout), or it returned a
final response with an HTTP status and a body whose JSON-parse outcome is
`none` (malformed — `response.json()` raises a `JSONDecodeError`, which
both except-arms cover) or `some j`.  `raise_for_status` raises exactly
for `400 ≤ status < 600`.  `results.get` on a non-dict JSON body raises an
*uncaught* `AttributeError`, modelled as `Except.error`.
-/

inductive PostOutcome : Type where
  | exception : PostOutcome
  | resp : Nat → Option Json → PostOutcome

def search_documents (r : PostOutcome) : Except Unit Json :=
  match r with
  | PostOutcome.exception => Except.ok (Json.arr [])
  | PostOutcome.resp status body =>
    if 400 ≤ status ∧ status < 600 then Except.ok (Json.arr [])
    else
      match body with
      | none => Except.ok (Json.arr [])
      | some (Json.obj kvs) => Except.ok (jlookupD kvs "data" (Json.arr []))
      | some _ => Except.error ()

/-! ## Raw result records and resolved document entries -/

/-- A raw search-result record (`doc.get(...)` on an opaque mapping: every
field may be absent). -/
structure RawRecord : Type where
  CaseNum : Option String
  VerdictDt : Option String
  CaseName : Option String
  PathForWeb : Option String
  FileName : Option String
  TypeCode : Option Int
  deriving DecidableEq

/-- The configuration mapping fields the pipelines read. -/
structure Config : Type where
  base_url : String
  output_dir : String
  deriving DecidableEq

/-- One resolved document entry as appended to the ledger's list. -/
structure PDoc : Type where
  case_number : String
  decision_date : String
  parties : String
  document_type : String
  file_size_bytes : Nat
  filename : String
  download_url : String
  download_status : String
  deriving DecidableEq

/-- Python truthiness of `doc.get(k)` for a string field:
`None` and `""` are falsy. -/
def truthy : Option String → Bool
  | none => false
  | some s => s ≠ ""

def supportedExt (e : String) : Bool := e = "pdf" || e = "docx"

/-- A raw record that survives both skip checks (truthy `PathForWeb` and
`FileName`, extension mapped to pdf/docx). -/
def isGood (r : RawRecord) : Bool :=
  truthy r.PathForWeb && truthy r.FileName &&
    supportedExt (get_file_extension r.TypeCode)

/-- The raw `TypeCode` value as passed on to `build_download_url`.
Unreachable for `none` (`get_file_extension none = "txt"` is filtered out
before the URL is built); the `0` placeholder is never used. -/
def tcInt : Option Int → Int
  | some n => n
  | none => 0

/-- A download oracle: what `download_file(session, url, dest_path)` would
return for each (url, destination) pair. -/
def DlOracle : Type := String → String → Bool × Nat

namespace ProcessDownload

/-! ### `_process_single_document` and `process_documents`
(src/scripts/process_download.py lines 62–132) -/

def process_single_document (dl : DlOracle) (document : RawRecord)
    (index : Nat) (config : Config) : Option PDoc :=
  let case_number := (document.CaseNum).getD ("case_" ++ pyNat index)
  let decision_date := parse_ms_date ((document.VerdictDt).getD "")
  let case_name := (document.CaseName).getD ""
  if truthy document.PathForWeb && truthy document.FileName then
    let path := (document.PathForWeb).getD ""
    let filename := (document.FileName).getD ""
    let extension := get_file_extension document.TypeCode
    if supportedExt extension then
      let download_url :=
        build_download_url config.base_url path filename (tcInt document.TypeCode)
      let safe_filename :=
        sanitize_filename (case_number ++ "_" ++ decision_date ++ "_" ++ pad4 index)
      let filepath := config.output_dir ++ "/" ++ safe_filename ++ "." ++ extension
      let r := dl download_url filepath
      some ⟨case_number, decision_date, case_name, extension, r.2,
            safe_filename, download_url, if r.1 then "success" else "failed"⟩
    else none
  else none

/-- The `for index, document in enumerate(documents, 1)` loop:
`index` counts every raw record, skipped or not. -/
def processFrom (dl : DlOracle) (config : Config) :
    Nat → List RawRecord → List PDoc
  | _, [] => []
  | index, d :: rest =>
    match process_single_document dl d index config with
    | some r => r :: processFrom dl config (index + 1) rest
    | none => processFrom dl config (index + 1) rest

def process_documents (dl : DlOracle) (documents : List RawRecord)
    (config : Config) : List PDoc :=
  processFrom dl config 1 documents

/-- Proof-side restatement of the entry `process_single_document` builds
for a record that survives both skip checks (same body, checks removed). -/
def mkEntry (dl : DlOracle) (document : RawRecord) (index : Nat)
    (config : Config) : PDoc :=
  let case_number := (document.CaseNum).getD ("case_" ++ pyNat index)
  let decision_date := parse_ms_date ((document.VerdictDt).getD "")
  let case_name := (document.CaseName).getD ""
  let path := (document.PathForWeb).getD ""
  let filename := (document.FileName).getD ""
  let extension := get_file_extension document.TypeCode
  let download_url :=
    build_download_url config.base_url path filename (tcInt document.TypeCode)
  let safe_filename :=
    sanitize_filename (case_number ++ "_" ++ decision_date ++ "_" ++ pad4 index)
  let filepath := config.output_dir ++ "/" ++ safe_filename ++ "." ++ extension
  let r := dl download_url filepath
  ⟨case_number, decision_date, case_name, extension, r.2, safe_filename,
   download_url, if r.1 then "success" else "failed"⟩

end ProcessDownload

namespace Utils

/-! ### `process_documents` (src/utils.py lines 174–243)

Differences from the `ProcessDownload` variant: the `sequential` counter
is incremented only when a record is actually appended, the extension
comes from `determine_ext`, and the download URL is built with the
hard-coded `type_code=4`. -/

def processFrom (dl : DlOracle) (config : Config) :
    Nat → List RawRecord → List PDoc
  | _, [] => []
  | sequential, doc :: rest =>
    let case_num := (doc.CaseNum).getD ("case_" ++ pyNat sequential)
    let decision_date := parse_ms_date ((doc.VerdictDt).getD "")
    let case_name := (doc.CaseName).getD ""
    if truthy doc.PathForWeb && truthy doc.FileName then
      let path := (doc.PathForWeb).getD ""
      let file_name := (doc.FileName).getD ""
      let ext := determine_ext doc.TypeCode
      if supportedExt ext then
        let download_url := build_download_url config.base_url path file_name 4
        let filename_safe :=
          sanitize_filename (case_num ++ "_" ++ decision_date ++ "_" ++ pad4 sequential)
        let filepath := config.output_dir ++ "/" ++ filename_safe ++ "." ++ ext
        let r := dl download_url filepath
        ⟨case_num, decision_date, case_name, ext, r.2, filename_safe,
         download_url, if r.1 then "success" else "failed"⟩ ::
          processFrom dl config (sequential + 1) rest
      else processFrom dl config sequential rest
    else processFrom dl config sequential rest

def process_documents (dl : DlOracle) (documents : List RawRecord)
    (config : Config) : List PDoc :=
  processFrom dl config 1 documents

/-- Proof-side restatement of the entry the `Utils` loop appends for a
record that survives both skip checks (same body, checks removed). -/
def mkEntry (dl : DlOracle) (doc : RawRecord) (sequential : Nat)
    (config : Config) : PDoc :=
  let case_num := (doc.CaseNum).getD ("case_" ++ pyNat sequential)
  let decision_date := parse_ms_date ((doc.VerdictDt).getD "")
  let case_name := (doc.CaseName).getD ""
  let path := (doc.PathForWeb).getD ""
  let file_name := (doc.FileName).getD ""
  let ext := determine_ext doc.TypeCode
  let download_url := build_download_url config.base_url path file_name 4
  let filename_safe :=
    sanitize_filename (case_num ++ "_" ++ decision_date ++ "_" ++ pad4 sequential)
  let filepath := config.output_dir ++ "/" ++ filename_safe ++ "." ++ ext
  let r := dl download_url filepath
  ⟨case_num, decision_date, case_name, ext, r.2, filename_safe,
   download_url, if r.1 then "success" else "failed"⟩

end Utils

/-! ## `save_metadata` (src/scripts/process_download.py lines 135–150)

Only the persisted counts matter for the claims; the JSON serialisation
and file writes are the identity on this data. -/

structure RunMetadata : Type where
  total_documents : Nat
  successful_downloads : Nat
  failed_downloads : Nat
  documents : List PDoc
  deriving DecidableEq

def save_metadata (documents : List PDoc) : RunMetadata :=
  { total_documents := documents.length
    successful_downloads :=
      (documents.filter (fun d => d.download_status = "success")).length
    failed_downloads :=
      (documents.filter (fun d => d.download_status = "failed")).length
    documents := documents }

/-! ## `download_file` (src/utils.py lines 38–52, identical copies in
src/scripts/process_download.py lines 13–33 and src/scraper.py lines 60–74)

```python
try:
    resp = session.get(url, stream=True, timeout=20)
    resp.raise_for_status()
    with open(dest_path, "wb") as f:
        for chunk in resp.iter_content(chunk_size=8192):
            if chunk:
                f.write(chunk)
    size = os.path.getsize(dest_path)
    return True, size
except Exception as e:
    return False, 0
```

The environment fixes the network outcome — `netError` for an exception
out of `session.get` (connection failure / timeout, after the adapter's
own retries), or `resp status chunks` for a final response (with
`raise_on_status=False` the retry adapter hands back the last response
even after retry exhaustion) — plus `ioFailAfter`: `some k` means the
write of the `k`-th non-empty chunk (0-based) raises an `OSError`.
The filesystem state is the content of `dest_path` (`none` = absent);
`open(dest_path, "wb")` creates/truncates it, and `os.path.getsize`
returns the number of bytes written. -/

inductive GetOutcome : Type where
  | netError : GetOutcome
  | resp : Nat → List (List Nat) → GetOutcome
  deriving DecidableEq

structure DownloadEnv : Type where
  get : GetOutcome
  ioFailAfter : Option Nat
  deriving DecidableEq

def download_file (env : DownloadEnv) (fs : Option (List Nat)) :
    (Bool × Nat) × Option (List Nat) :=
  match env.get with
  | GetOutcome.netError => ((false, 0), fs)
  | GetOutcome.resp status chunks =>
    if 400 ≤ status ∧ status < 600 then ((false, 0), fs)
    else
      let written := chunks.filter (fun c => c ≠ [])
      match env.ioFailAfter with
      | some k =>
        if k < written.length then
          ((false, 0), some (written.take k).flatten)
        else
          ((true, written.flatten.length), some written.flatten)
      | none => ((true, written.flatten.length), some written.flatten)

/-! ## Query-string observer (for stating URL claims)

Splits a URL at its first `?` and reads the query as `&`-separated
`key=value` pairs, the standard decomposition the remote endpoint uses. -/

/-- Split a character list on a separator, accumulating the current chunk
in reverse. -/
def splitGo (sep : Char) : List Char → List Char → List (List Char)
  | acc, [] => [acc.reverse]
  | acc, c :: rest =>
    if c = sep then acc.reverse :: splitGo sep [] rest
    else splitGo sep (c :: acc) rest

/-- Split a character list on a separator character. -/
def splitOnChar (sep : Char) (l : List Char) : List (List Char) :=
  splitGo sep [] l

def pairOfChunk (chunk : List Char) : String × String :=
  (⟨chunk.takeWhile (fun c => c ≠ '=')⟩,
   ⟨((chunk.dropWhile (fun c => c ≠ '=')).drop 1)⟩)

/-- The value of query parameter `key` in `url`, if any. -/
def getQueryParam (url key : String) : Option String :=
  let q := ((url.data.dropWhile (fun c => c ≠ '?')).drop 1)
  ((splitOnChar '&' q).map pairOfChunk).lookup key

/-! ## The spec's notion of a "valid ISO-8601 string with explicit UTC
designator"

Modelled from the spec (§4.2 / §8): the shape
`YYYY-MM-DDTHH:MM:SS[.ffffff]Z`.  This is a spec-side comparator, used
only to state that the payload builder's output meets it. -/

def matchDigits : Nat → List Char → Option (List Char)
  | 0, l => some l
  | _ + 1, [] => none
  | k + 1, c :: l => if isDigitB c then matchDigits k l else none

def matchLit (ch : Char) : List Char → Option (List Char)
  | [] => none
  | c :: l => if c = ch then some l else none

def specIso8601UTC (s : String) : Bool :=
  match (((((((((((matchDigits 4 s.data).bind (matchLit '-')).bind
      (matchDigits 2)).bind (matchLit '-')).bind (matchDigits 2)).bind
      (matchLit 'T')).bind (matchDigits 2)).bind (matchLit ':')).bind
      (matchDigits 2)).bind (matchLit ':')).bind (matchDigits 2)) with
  | none => false
  | some rest =>
    match rest with
    | ['Z'] => true
    | '.' :: rest2 =>
      match matchDigits 6 rest2 with
      | some ['Z'] => true
      | _ => false
    | _ => false

/-! ## Concrete fixtures used by counterexamples and witnesses -/

def cfg0 : Config := ⟨"https://supremedecisions.court.gov.il", "output/documents"⟩

/-- A complete record with the pdf type code 4. -/
def rec_pdf : RawRecord :=
  ⟨some "1001/22", some "/Date(1650000000000)/", some "A v B",
   some "EnglishVerdicts/20/440/021/v26", some "20021440.V26", some 4⟩

/-- A complete record with the docx type code 3. -/
def rec_docx : RawRecord :=
  ⟨some "2002/20", some "/Date(1650000000000)/", some "C v D",
   some "EnglishVerdicts/20/100", some "20100.docx", some 3⟩

/-- A record with an unsupported type code 7 (skipped). -/
def rec_unsupported : RawRecord :=
  ⟨some "3003/21", none, none, some "p2", some "f2", some 7⟩

/-- A record missing the storage path (skipped). -/
def rec_missing_path : RawRecord :=
  ⟨some "4004/21", none, none, none, some "f3", some 4⟩

/-- Download oracle taken from `download_file` on a success response with
a 123-byte body. -/
def dlOk : DlOracle :=
  fun _ _ =>
    (download_file ⟨GetOutcome.resp 200 [List.replicate 123 0], none⟩ none).1

/-- Download oracle taken from `download_file` on a network error. -/
def dlFail : DlOracle :=
  fun _ _ => (download_file ⟨GetOutcome.netError, none⟩ none).1

/-- Download oracle taken from `download_file` on a success response with
an empty body. -/
def dlEmptyOk : DlOracle :=
  fun _ _ => (download_file ⟨GetOutcome.resp 200 [], none⟩ none).1

/-- The first entry the `ProcessDownload` pipeline produces for
`[rec_pdf]` (used to make witnesses closed terms). -/
def pd_entry0 : PDoc :=
  (ProcessDownload.process_documents dlOk [rec_pdf] cfg0).headD
    ⟨"", "", "", "", 0, "", "", ""⟩

/-- The first entry the `Utils` pipeline produces for `[rec_docx]`. -/
def u_entry0 : PDoc :=
  (Utils.process_documents dlOk [rec_docx] cfg0).headD
    ⟨"", "", "", "", 0, "", "", ""⟩

/-- The first entry the `ProcessDownload` pipeline produces for
`[rec_pdf]` when every download fails. -/
def pd_fail_entry0 : PDoc :=
  (ProcessDownload.process_documents dlFail [rec_pdf] cfg0).headD
    ⟨"", "", "", "", 0, "", "", ""⟩

/-- The only entry the `ProcessDownload` pipeline produces for the batch
`[rec_unsupported, rec_pdf]`: `rec_pdf` is processed at raw position 2. -/
def pd_entry_idx2 : PDoc :=
  (ProcessDownload.process_documents dlOk [rec_unsupported, rec_pdf]
    cfg0).headD ⟨"", "", "", "", 0, "", "", ""⟩

/-! ## Character-level lemmas -/

theorem toNat_ofNat_of_valid {n : Nat} (h : n < 55296) :
    (Char.ofNat n).toNat = n := by
  have hv : n.isValidChar := Or.inl h
  simp only [Char.ofNat, hv, dif_pos, Char.ofNatAux, Char.toNat, UInt32.toNat]
  rfl

theorem char_toNat_lt (c : Char) : c.toNat < 1114112 := by
  rcases c.valid with h | ⟨_, h⟩
  · exact Nat.lt_trans h (by decide)
  · exact h

theorem char_eq_of_toNat_eq {a b : Char} (h : a.toNat = b.toNat) : a = b := by
  have := congrArg Char.ofNat h
  rwa [Char.ofNat_toNat, Char.ofNat_toNat] at this

theorem char_ne_of_toNat_ne {a b : Char} (h : a.toNat ≠ b.toNat) : a ≠ b :=
  fun he => h (congrArg Char.toNat he)

theorem bool_eq_of_iff {a b : Bool} (h : (a = true) ↔ (b = true)) : a = b := by
  cases a <;> cases b <;> simp_all

/-- Over ASCII, lowering one character yields exactly one ASCII character
that keeps its `\s` / `[^\w\s-]` classification and is itself fixed by
lowering (the U+0130 expansion only arises outside ASCII). -/
theorem lowerChar_ascii {c : Char} (h : c.toNat < 128) :
    ∃ lc : Char, lowerChar c = [lc] ∧ lc.toNat < 128 ∧
      isSpaceChar lc = isSpaceChar c ∧ keepChar lc = keepChar c ∧
      lowerChar lc = [lc] := by
  by_cases hu : 65 ≤ c.toNat ∧ c.toNat ≤ 90
  · have ht : (Char.ofNat (c.toNat + 32)).toNat = c.toNat + 32 :=
      toNat_ofNat_of_valid (by omega)
    refine ⟨Char.ofNat (c.toNat + 32), ?_, ?_, ?_, ?_, ?_⟩
    · unfold lowerChar
      rw [if_pos hu]
    · omega
    · unfold isSpaceChar
      apply bool_eq_of_iff
      rw [ht]
      simp only [Bool.or_eq_true, Bool.and_eq_true, decide_eq_true_eq]
      omega
    · unfold keepChar isWordChar isSpaceChar isDigitB
      apply bool_eq_of_iff
      rw [ht]
      simp only [Bool.or_eq_true, Bool.and_eq_true, decide_eq_true_eq]
      omega
    · unfold lowerChar
      rw [if_neg (by rw [ht]; omega), if_neg (by rw [ht]; omega)]
  · refine ⟨c, ?_, h, rfl, rfl, ?_⟩
    · unfold lowerChar
      rw [if_neg hu, if_neg (by omega)]
    · unfold lowerChar
      rw [if_neg hu, if_neg (by omega)]

theorem flatMap_lowerChar_fixed :
    ∀ l : List Char, (∀ c ∈ l, lowerChar c = [c]) →
      l.flatMap lowerChar = l := by
  intro l
  induction l with
  | nil => intro _; rfl
  | cons c rest ih =>
    intro h
    rw [List.flatMap_cons, h c (List.mem_cons_self _ _), List.singleton_append]
    rw [ih (fun x hx => h x (List.mem_cons_of_mem _ hx))]

/-! ## Lemmas on `collapseGo` (the whitespace-collapsing pass) -/

theorem mem_collapseGo :
    ∀ (l : List Char) (b : Bool) (c : Char), c ∈ collapseGo b l →
      c = '_' ∨ (c ∈ l ∧ isSpaceChar c = false) := by
  intro l
  induction l with
  | nil => intro b c h; simp [collapseGo] at h
  | cons c0 rest ih =>
    intro b c h
    unfold collapseGo at h
    by_cases hs : isSpaceChar c0
    · rw [if_pos hs] at h
      cases b with
      | true =>
        rcases ih true c h with h1 | ⟨h2, h3⟩
        · exact Or.inl h1
        · exact Or.inr ⟨List.mem_cons_of_mem _ h2, h3⟩
      | false =>
        rcases List.mem_cons.mp h with h1 | h1
        · exact Or.inl h1
        · rcases ih true c h1 with h2 | ⟨h2, h3⟩
          · exact Or.inl h2
          · exact Or.inr ⟨List.mem_cons_of_mem _ h2, h3⟩
    · rw [if_neg hs] at h
      rcases List.mem_cons.mp h with h1 | h1
      · subst h1
        exact Or.inr ⟨List.mem_cons_self _ _, Bool.not_eq_true _ ▸ (by simpa using hs)⟩
      · rcases ih false c h1 with h2 | ⟨h2, h3⟩
        · exact Or.inl h2
        · exact Or.inr ⟨List.mem_cons_of_mem _ h2, h3⟩

theorem collapseGo_eq_self :
    ∀ l : List Char, (∀ c ∈ l, isSpaceChar c = false) → collapseGo false l = l := by
  intro l
  induction l with
  | nil => intro _; rfl
  | cons c0 rest ih =>
    intro h
    unfold collapseGo
    rw [if_neg (by simp [h c0 (List.mem_cons_self _ _)])]
    rw [ih (fun c hc => h c (List.mem_cons_of_mem _ hc))]

/-- C5 counterexample: `sanitize_filename` is not idempotent on the
program's full (Unicode) input domain.  CPython's `str.lower` expands
U+0130 (`"İ"`) to `"i"` followed by the combining mark U+0307; the
combining mark matches neither `\w` nor `\s` nor `-`, so a second
sanitization pass strips it: sanitizing `"İ"` once yields `"i"` + U+0307,
twice yields `"i"`. -/
theorem c5_counterexample :
    sanitize_filename "İ" = "i̇" ∧
    sanitize_filename (sanitize_filename "İ") = "i" ∧
    sanitize_filename (sanitize_filename "İ") ≠
      sanitize_filename "İ" :=
  ⟨by decide, by decide, by decide⟩

/-- C5 amended: filename sanitization is idempotent on ASCII input — for
every string whose characters have code points below 128,
`sanitize_filename (sanitize_filename s) = sanitize_filename s`.  The
unrestricted claim fails (see the `"İ"` counterexample): characters whose
lowercase form expands, such as U+0130, break it. -/
theorem c5_sanitize_filename_idempotent_ascii (s : String)
    (hascii : ∀ c ∈ s.data, c.toNat < 128) :
    sanitize_filename (sanitize_filename s) = sanitize_filename s := by
  unfold sanitize_filename collapseWs
  set l := (collapseGo false (s.data.filter keepChar)).flatMap lowerChar with hl
  have hdata : (String.mk l).data = l := rfl
  have hchar : ∀ c ∈ l,
      keepChar c = true ∧ isSpaceChar c = false ∧ lowerChar c = [c] := by
    intro c hc
    rw [hl] at hc
    rcases List.mem_flatMap.mp hc with ⟨c1, hc1, hcl⟩
    rcases mem_collapseGo _ _ _ hc1 with h1 | ⟨h2, h3⟩
    · subst h1
      rw [show lowerChar '_' = ['_'] from by decide] at hcl
      simp only [List.mem_singleton] at hcl
      subst hcl
      exact ⟨by decide, by decide, by decide⟩
    · have hmf := List.mem_filter.mp h2
      obtain ⟨lc, hlc1, _, hlc3, hlc4, hlc5⟩ :=
        lowerChar_ascii (hascii c1 hmf.1)
      rw [hlc1] at hcl
      simp only [List.mem_singleton] at hcl
      subst hcl
      refine ⟨?_, ?_, hlc5⟩
      · rw [hlc4]
        exact hmf.2
      · rw [hlc3]
        exact h3
  rw [hdata]
  rw [List.filter_eq_self.mpr (fun c hc => (hchar c hc).1)]
  rw [collapseGo_eq_self l (fun c hc => (hchar c hc).2.1)]
  exact congrArg String.mk (flatMap_lowerChar_fixed l (fun c hc => (hchar c hc).2.2))

theorem c5_sanitize_filename_idempotent_ascii_witness :
    (∀ c ∈ ("Case 123 / A-B  c" : String).data, c.toNat < 128) ∧
    sanitize_filename (sanitize_filename "Case 123 / A-B  c") =
      sanitize_filename "Case 123 / A-B  c" :=
  ⟨by decide, c5_sanitize_filename_idempotent_ascii _ (by decide)⟩

/-- C2: `parse_ms_date` on the marker `/Date(1650000000000)/` yields the
UTC calendar date `2022-04-15`; on the empty string it yields `""`; and on
any string containing no substring matching `/Date(\d+)/` (i.e. where the
regex search finds nothing) it yields `""`.  The function is total, so no
exception is possible. -/
theorem c2_parse_ms_date :
    parse_ms_date "/Date(1650000000000)/" = "2022-04-15" ∧
    parse_ms_date "" = "" ∧
    ∀ s : String, searchDateMarker s.data = none → parse_ms_date s = "" := by
  refine ⟨by decide, by decide, ?_⟩
  intro s h
  unfold parse_ms_date
  split
  · rfl
  · rw [h]

theorem c2_parse_ms_date_witness :
    searchDateMarker ("no marker here".data) = none ∧
      parse_ms_date "no marker here" = "" :=
  ⟨by decide, c2_parse_ms_date.2.2 "no marker here" (by decide)⟩

/-- C7: the search executor returns an empty result list rather than
raising when the POST raises a network error or timeout, when the final
HTTP status is an error status (the `raise_for_status` range 400–599),
or when the body is not valid JSON; a valid JSON object lacking the
top-level "data" key also yields an empty list (not an error); and when
"data" is present its value is returned exactly. -/
theorem c7_search_documents :
    search_documents PostOutcome.exception = Except.ok (Json.arr []) ∧
    (∀ (s : Nat) (b : Option Json), 400 ≤ s → s < 600 →
      search_documents (PostOutcome.resp s b) = Except.ok (Json.arr [])) ∧
    (∀ s : Nat, ¬(400 ≤ s ∧ s < 600) →
      search_documents (PostOutcome.resp s none) = Except.ok (Json.arr [])) ∧
    (∀ (s : Nat) (kvs : List (String × Json)), ¬(400 ≤ s ∧ s < 600) →
      jlookup kvs "data" = none →
      search_documents (PostOutcome.resp s (some (Json.obj kvs))) =
        Except.ok (Json.arr [])) ∧
    (∀ (s : Nat) (kvs : List (String × Json)) (v : Json),
      ¬(400 ≤ s ∧ s < 600) → jlookup kvs "data" = some v →
      search_documents (PostOutcome.resp s (some (Json.obj kvs))) =
        Except.ok v) := by
  refine ⟨rfl, ?_, ?_, ?_, ?_⟩
  · intro s b h1 h2
    simp only [search_documents]
    rw [if_pos ⟨h1, h2⟩]
  · intro s h
    simp only [search_documents]
    rw [if_neg h]
  · intro s kvs h hl
    simp only [search_documents]
    rw [if_neg h]
    simp [jlookupD, hl]
  · intro s kvs v h hl
    simp only [search_documents]
    rw [if_neg h]
    simp [jlookupD, hl]

theorem c7_search_documents_witness :
    search_documents (PostOutcome.resp 500 (some (Json.obj [("data",
        Json.arr [Json.int 1])]))) = Except.ok (Json.arr []) ∧
    search_documents (PostOutcome.resp 200 none) = Except.ok (Json.arr []) ∧
    search_documents (PostOutcome.resp 200 (some (Json.obj [("x",
        Json.int 1)]))) = Except.ok (Json.arr []) ∧
    search_documents (PostOutcome.resp 200 (some (Json.obj [("data",
        Json.arr [Json.int 7, Json.str "r"])]))) =
      Except.ok (Json.arr [Json.int 7, Json.str "r"]) :=
  ⟨c7_search_documents.2.1 500 _ (by decide) (by decide),
   c7_search_documents.2.2.1 200 (by decide),
   c7_search_documents.2.2.2.1 200 _ (by decide) rfl,
   c7_search_documents.2.2.2.2 200 _ _ (by decide) rfl⟩

/-- C10: a download whose HTTP response has a success status but an empty
body is a success of size 0: the destination file is created empty, the
result is `(true, 0)`, and the corresponding ledger entry has status
"success" with `file_size_bytes = 0` — zero size does not imply failure.
Chunks that are empty are skipped without affecting the outcome. -/
theorem c10_empty_body_success :
    download_file ⟨GetOutcome.resp 200 [], none⟩ none = ((true, 0), some []) ∧
    download_file ⟨GetOutcome.resp 200 [[], [], []], none⟩ none =
      ((true, 0), some []) ∧
    (ProcessDownload.process_documents dlEmptyOk [rec_pdf] cfg0).map
      (fun e => (e.download_status, e.file_size_bytes)) = [("success", 0)] ∧
    (save_metadata (ProcessDownload.process_documents dlEmptyOk [rec_pdf]
      cfg0)).successful_downloads = 1 :=
  ⟨by decide, by decide, by decide, by decide⟩

/-! ## Pipeline characterization lemmas -/

theorem determine_ext_eq (t : Option Int) :
    determine_ext t = get_file_extension t := by
  unfold determine_ext get_file_extension
  by_cases h2 : t = some 2
  · simp [h2]
  · by_cases h4 : t = some 4
    · simp [h4]
    · by_cases h3 : t = some 3 <;> simp [h2, h3, h4]

theorem psd_eq (dl : DlOracle) (d : RawRecord) (idx : Nat) (cfg : Config) :
    ProcessDownload.process_single_document dl d idx cfg =
      if isGood d then some (ProcessDownload.mkEntry dl d idx cfg) else none := by
  by_cases hp : truthy d.PathForWeb
    <;> by_cases hf : truthy d.FileName
    <;> by_cases he : supportedExt (get_file_extension d.TypeCode)
    <;> simp [ProcessDownload.process_single_document, ProcessDownload.mkEntry,
          isGood, hp, hf, he]

theorem u_processFrom_cons (dl : DlOracle) (cfg : Config) (seq : Nat)
    (d : RawRecord) (rest : List RawRecord) :
    Utils.processFrom dl cfg seq (d :: rest) =
      if isGood d then
        Utils.mkEntry dl d seq cfg :: Utils.processFrom dl cfg (seq + 1) rest
      else Utils.processFrom dl cfg seq rest := by
  by_cases hp : truthy d.PathForWeb
    <;> by_cases hf : truthy d.FileName
    <;> by_cases he : supportedExt (determine_ext d.TypeCode)
    <;> simp [Utils.processFrom.eq_2, Utils.mkEntry, isGood,
          ← determine_ext_eq, hp, hf, he]

theorem pd_processFrom_length (dl : DlOracle) (cfg : Config) :
    ∀ (docs : List RawRecord) (idx : Nat),
      (ProcessDownload.processFrom dl cfg idx docs).length =
        (docs.filter isGood).length := by
  intro docs
  induction docs with
  | nil => intro _; rfl
  | cons d rest ih =>
    intro idx
    rw [ProcessDownload.processFrom.eq_2, psd_eq]
    by_cases hg : isGood d = true
    · simp [hg, List.filter_cons, ih (idx + 1)]
    · simp [hg, List.filter_cons, ih (idx + 1)]

theorem u_processFrom_length (dl : DlOracle) (cfg : Config) :
    ∀ (docs : List RawRecord) (seq : Nat),
      (Utils.processFrom dl cfg seq docs).length =
        (docs.filter isGood).length := by
  intro docs
  induction docs with
  | nil => intro _; rfl
  | cons d rest ih =>
    intro seq
    rw [u_processFrom_cons]
    by_cases hg : isGood d = true
    · simp [hg, List.filter_cons, ih]
    · simp [hg, List.filter_cons, ih]

/-- C1: raw records whose type code maps to neither pdf nor docx, and raw
records with a missing (or empty, hence falsy) `PathForWeb` or `FileName`,
are excluded from the returned document list entirely, in both pipeline
variants: the output has exactly one entry per surviving (`isGood`)
record, a non-surviving record yields `none` from
`_process_single_document`, and the `Utils` loop on a non-surviving
record equals the loop without it. -/
theorem c1_skipped_records_excluded :
    (∀ (dl : DlOracle) (cfg : Config) (docs : List RawRecord),
      (ProcessDownload.process_documents dl docs cfg).length =
        (docs.filter isGood).length ∧
      (Utils.process_documents dl docs cfg).length =
        (docs.filter isGood).length) ∧
    (∀ (dl : DlOracle) (cfg : Config) (d : RawRecord) (idx : Nat),
      isGood d = false →
      ProcessDownload.process_single_document dl d idx cfg = none) ∧
    (∀ (dl : DlOracle) (cfg : Config) (d : RawRecord)
      (rest : List RawRecord) (seq : Nat), isGood d = false →
      Utils.processFrom dl cfg seq (d :: rest) =
        Utils.processFrom dl cfg seq rest) := by
  refine ⟨?_, ?_, ?_⟩
  · intro dl cfg docs
    exact ⟨pd_processFrom_length dl cfg docs 1, u_processFrom_length dl cfg docs 1⟩
  · intro dl cfg d idx h
    rw [psd_eq, if_neg (by simp [h])]
  · intro dl cfg d rest seq h
    rw [u_processFrom_cons, if_neg (by simp [h])]

theorem c1_skipped_records_excluded_witness :
    isGood rec_unsupported = false ∧ isGood rec_missing_path = false ∧
    ProcessDownload.process_single_document dlOk rec_unsupported 1 cfg0 = none ∧
    Utils.processFrom dlOk cfg0 1 [rec_missing_path, rec_pdf] =
      Utils.processFrom dlOk cfg0 1 [rec_pdf] :=
  ⟨by decide, by decide,
   c1_skipped_records_excluded.2.1 dlOk cfg0 rec_unsupported 1 (by decide),
   c1_skipped_records_excluded.2.2 dlOk cfg0 rec_missing_path [rec_pdf] 1
     (by decide)⟩

/-! ## Download-status lemmas (for the ledger counts) -/

theorem ite_status (b : Bool) :
    (if b then "success" else "failed") = "success" ∨
      (if b then "success" else "failed") = "failed" := by
  cases b <;> simp

theorem pd_mkEntry_status (dl : DlOracle) (d : RawRecord) (idx : Nat)
    (cfg : Config) :
    (ProcessDownload.mkEntry dl d idx cfg).download_status = "success" ∨
      (ProcessDownload.mkEntry dl d idx cfg).download_status = "failed" :=
  ite_status _

theorem u_mkEntry_status (dl : DlOracle) (d : RawRecord) (seq : Nat)
    (cfg : Config) :
    (Utils.mkEntry dl d seq cfg).download_status = "success" ∨
      (Utils.mkEntry dl d seq cfg).download_status = "failed" :=
  ite_status _

theorem pd_mem_status (dl : DlOracle) (cfg : Config) :
    ∀ (docs : List RawRecord) (idx : Nat) (e : PDoc),
      e ∈ ProcessDownload.processFrom dl cfg idx docs →
      e.download_status = "success" ∨ e.download_status = "failed" := by
  intro docs
  induction docs with
  | nil => intro idx e h; simp [ProcessDownload.processFrom] at h
  | cons d rest ih =>
    intro idx e h
    rw [ProcessDownload.processFrom.eq_2, psd_eq] at h
    by_cases hg : isGood d = true
    · simp only [hg, if_true] at h
      rcases List.mem_cons.mp h with h1 | h1
      · subst h1; exact pd_mkEntry_status dl d idx cfg
      · exact ih (idx + 1) e h1
    · simp only [Bool.not_eq_true] at hg
      simp only [hg, Bool.false_eq_true, if_false] at h
      exact ih (idx + 1) e h

theorem u_mem_status (dl : DlOracle) (cfg : Config) :
    ∀ (docs : List RawRecord) (seq : Nat) (e : PDoc),
      e ∈ Utils.processFrom dl cfg seq docs →
      e.download_status = "success" ∨ e.download_status = "failed" := by
  intro docs
  induction docs with
  | nil => intro seq e h; simp [Utils.processFrom] at h
  | cons d rest ih =>
    intro seq e h
    rw [u_processFrom_cons] at h
    by_cases hg : isGood d = true
    · simp only [hg, if_true] at h
      rcases List.mem_cons.mp h with h1 | h1
      · subst h1; exact u_mkEntry_status dl d seq cfg
      · exact ih (seq + 1) e h1
    · simp only [Bool.not_eq_true] at hg
      simp only [hg, Bool.false_eq_true, if_false] at h
      exact ih seq e h

theorem count_add_eq_length (l : List PDoc)
    (h : ∀ e ∈ l, e.download_status = "success" ∨ e.download_status = "failed") :
    (l.filter (fun d => d.download_status = "success")).length +
      (l.filter (fun d => d.download_status = "failed")).length = l.length := by
  induction l with
  | nil => rfl
  | cons e rest ih =>
    have ih' := ih (fun x hx => h x (List.mem_cons_of_mem _ hx))
    rcases h e (List.mem_cons_self _ _) with hs | hf
    · rw [List.filter_cons, List.filter_cons]
      simp [hs]
      omega
    · rw [List.filter_cons, List.filter_cons]
      simp [hf]
      omega

/-- C6: in every persisted `RunMetadata` built by `save_metadata` from a
pipeline output (either variant), `successful_downloads +
failed_downloads = total_documents`, where `total_documents` is the
length of the documents list; this holds because every entry reaching
the ledger has `download_status` equal to `"success"` or `"failed"`
(and those strings are distinct, so exactly one applies). -/
theorem c6_counts_reconcile :
    ∀ (dl : DlOracle) (cfg : Config) (docs : List RawRecord),
      ((save_metadata (ProcessDownload.process_documents dl docs
          cfg)).successful_downloads +
        (save_metadata (ProcessDownload.process_documents dl docs
          cfg)).failed_downloads =
        (save_metadata (ProcessDownload.process_documents dl docs
          cfg)).total_documents) ∧
      ((save_metadata (Utils.process_documents dl docs
          cfg)).successful_downloads +
        (save_metadata (Utils.process_documents dl docs
          cfg)).failed_downloads =
        (save_metadata (Utils.process_documents dl docs
          cfg)).total_documents) ∧
      (∀ e ∈ ProcessDownload.process_documents dl docs cfg,
        (e.download_status = "success" ∨ e.download_status = "failed") ∧
          ("success" : String) ≠ "failed") := by
  intro dl cfg docs
  refine ⟨?_, ?_, ?_⟩
  · exact count_add_eq_length _ (fun e he => pd_mem_status dl cfg docs 1 e he)
  · exact count_add_eq_length _ (fun e he => u_mem_status dl cfg docs 1 e he)
  · intro e he
    exact ⟨pd_mem_status dl cfg docs 1 e he, by decide⟩

theorem c6_counts_reconcile_witness :
    pd_entry0 ∈ ProcessDownload.process_documents dlOk [rec_pdf] cfg0 ∧
    (pd_entry0.download_status = "success" ∨
      pd_entry0.download_status = "failed") :=
  ⟨by decide,
   ((c6_counts_reconcile dlOk cfg0 [rec_pdf]).2.2 pd_entry0 (by decide)).1⟩

/-! ## Lemmas on `download_file` failure shapes -/

theorem download_file_cases (env : DownloadEnv) (fs : Option (List Nat)) :
    (download_file env fs).1 = (false, 0) ∨ (download_file env fs).1.1 = true := by
  obtain ⟨g, io⟩ := env
  cases g with
  | netError => exact Or.inl rfl
  | resp status chunks =>
    unfold download_file
    simp only []
    by_cases hs : 400 ≤ status ∧ status < 600
    · rw [if_pos hs]
      exact Or.inl rfl
    · rw [if_neg hs]
      cases io with
      | some k =>
        simp only []
        by_cases hk : k < (chunks.filter (fun c => decide (c ≠ []))).length
        · rw [if_pos hk]
          exact Or.inl rfl
        · rw [if_neg hk]
          exact Or.inr rfl
      | none => exact Or.inr rfl

theorem pd_mkEntry_dlFail (d : RawRecord) (idx : Nat) (cfg : Config) :
    (ProcessDownload.mkEntry dlFail d idx cfg).download_status = "failed" ∧
      (ProcessDownload.mkEntry dlFail d idx cfg).file_size_bytes = 0 :=
  ⟨rfl, rfl⟩

theorem pd_mem_dlFail (cfg : Config) :
    ∀ (docs : List RawRecord) (idx : Nat) (e : PDoc),
      e ∈ ProcessDownload.processFrom dlFail cfg idx docs →
      e.download_status = "failed" ∧ e.file_size_bytes = 0 := by
  intro docs
  induction docs with
  | nil => intro idx e h; simp [ProcessDownload.processFrom] at h
  | cons d rest ih =>
    intro idx e h
    rw [ProcessDownload.processFrom.eq_2, psd_eq] at h
    by_cases hg : isGood d = true
    · simp only [hg, if_true] at h
      rcases List.mem_cons.mp h with h1 | h1
      · subst h1; exact pd_mkEntry_dlFail d idx cfg
      · exact ih (idx + 1) e h1
    · simp only [Bool.not_eq_true] at hg
      simp only [hg, Bool.false_eq_true, if_false] at h
      exact ih (idx + 1) e h

/-- C8: every failing single-document download yields `(failure, 0)` —
a network error, an error final status after the adapter's retries, or an
I/O error while writing all produce result `(false, 0)`; an error status
(400–599, e.g. HTTP 500 handed back after retry exhaustion) leaves the
filesystem untouched, so no partial file is created; entries recorded
from a failing downloader carry status `"failed"` with
`file_size_bytes = 0`; and the batch continues — every surviving record
still yields its ledger entry. -/
theorem c8_download_failure :
    (∀ (env : DownloadEnv) (fs : Option (List Nat)),
      (download_file env fs).1.1 = false → (download_file env fs).1 = (false, 0)) ∧
    (∀ (s : Nat) (chunks : List (List Nat)) (io : Option Nat)
      (fs : Option (List Nat)), 400 ≤ s → s < 600 →
      download_file ⟨GetOutcome.resp s chunks, io⟩ fs = ((false, 0), fs)) ∧
    (∀ (docs : List RawRecord) (cfg : Config) (e : PDoc),
      e ∈ ProcessDownload.process_documents dlFail docs cfg →
      e.download_status = "failed" ∧ e.file_size_bytes = 0) ∧
    (∀ (docs : List RawRecord) (cfg : Config),
      (ProcessDownload.process_documents dlFail docs cfg).length =
        (docs.filter isGood).length) := by
  refine ⟨?_, ?_, ?_, ?_⟩
  · intro env fs h
    rcases download_file_cases env fs with h1 | h1
    · exact h1
    · rw [h1] at h; exact absurd h (by simp)
  · intro s chunks io fs h1 h2
    unfold download_file
    simp only []
    rw [if_pos ⟨h1, h2⟩]
  · intro docs cfg e h
    exact pd_mem_dlFail cfg docs 1 e h
  · intro docs cfg
    exact pd_processFrom_length dlFail cfg docs 1

theorem c8_download_failure_witness :
    download_file ⟨GetOutcome.resp 500 [[1, 2, 3]], none⟩ none =
      ((false, 0), none) ∧
    pd_fail_entry0.download_status = "failed" ∧
      pd_fail_entry0.file_size_bytes = 0 :=
  ⟨c8_download_failure.2.1 500 [[1, 2, 3]] none none (by decide) (by decide),
   c8_download_failure.2.2.1 [rec_pdf] cfg0 pd_fail_entry0 (by decide)⟩

/-! ## List scanning lemmas (for decomposing query strings) -/

theorem takeWhile_append_of_all {p : Char → Bool} :
    ∀ (l1 l2 : List Char), (∀ c ∈ l1, p c = true) →
      (l1 ++ l2).takeWhile p = l1 ++ l2.takeWhile p := by
  intro l1
  induction l1 with
  | nil => intro l2 _; rfl
  | cons c rest ih =>
    intro l2 h
    simp only [List.cons_append, List.takeWhile_cons,
      h c (List.mem_cons_self _ _), if_true]
    rw [ih l2 (fun x hx => h x (List.mem_cons_of_mem _ hx))]

theorem dropWhile_append_of_all {p : Char → Bool} :
    ∀ (l1 l2 : List Char), (∀ c ∈ l1, p c = true) →
      (l1 ++ l2).dropWhile p = l2.dropWhile p := by
  intro l1
  induction l1 with
  | nil => intro l2 _; rfl
  | cons c rest ih =>
    intro l2 h
    simp only [List.cons_append, List.dropWhile_cons,
      h c (List.mem_cons_self _ _), if_true]
    exact ih l2 (fun x hx => h x (List.mem_cons_of_mem _ hx))

theorem splitGo_no_sep (sep : Char) :
    ∀ (l acc : List Char), (∀ c ∈ l, c ≠ sep) →
      splitGo sep acc l = [acc.reverse ++ l] := by
  intro l
  induction l with
  | nil => intro acc _; simp [splitGo]
  | cons c rest ih =>
    intro acc h
    unfold splitGo
    rw [if_neg (h c (List.mem_cons_self _ _))]
    rw [ih (c :: acc) (fun x hx => h x (List.mem_cons_of_mem _ hx))]
    simp

theorem splitGo_append_sep (sep : Char) :
    ∀ (l1 acc l2 : List Char), (∀ c ∈ l1, c ≠ sep) →
      splitGo sep acc (l1 ++ sep :: l2) =
        (acc.reverse ++ l1) :: splitGo sep [] l2 := by
  intro l1
  induction l1 with
  | nil =>
    intro acc l2 _
    rw [List.nil_append, List.append_nil, splitGo.eq_2, if_pos rfl]
  | cons c rest ih =>
    intro acc l2 h
    rw [List.cons_append, splitGo.eq_2, if_neg (h c (List.mem_cons_self _ _))]
    rw [ih (c :: acc) l2 (fun x hx => h x (List.mem_cons_of_mem _ hx))]
    simp

/-! ## Character facts about `quote_plus` output -/

theorem utf8Bytes_lt (c : Char) : ∀ b ∈ utf8Bytes c, b < 256 := by
  intro b hb
  have hc := char_toNat_lt c
  simp only [utf8Bytes] at hb
  split at hb
  · simp at hb; omega
  · split at hb
    · simp at hb
      rcases hb with h | h <;> omega
    · split at hb
      · simp at hb
        rcases hb with h | h | h <;> omega
      · simp at hb
        rcases hb with h | h | h | h <;> omega

theorem hexDigitU_toNat {n : Nat} (h : n ≤ 15) :
    (hexDigitU n).toNat = if n < 10 then 48 + n else 55 + n := by
  unfold hexDigitU
  split
  · exact toNat_ofNat_of_valid (by omega)
  · exact toNat_ofNat_of_valid (by omega)

theorem quoteByte_chars {b : Nat} (hb : b < 256) :
    ∀ ch ∈ quoteByte b, ch.toNat ≠ 38 ∧ ch.toNat ≠ 61 ∧ ch.toNat ≠ 63 := by
  intro ch hch
  unfold quoteByte at hch
  split at hch
  · next hsafe =>
    simp at hch
    subst hch
    rw [toNat_ofNat_of_valid (by omega)]
    unfold safeByte at hsafe
    simp only [Bool.or_eq_true, Bool.and_eq_true, decide_eq_true_eq] at hsafe
    omega
  · split at hch
    · simp at hch
      subst hch
      refine ⟨by decide, by decide, by decide⟩
    · simp at hch
      rcases hch with h | h | h
      · subst h; refine ⟨by decide, by decide, by decide⟩
      · subst h
        rw [hexDigitU_toNat (by omega)]
        split <;> omega
      · subst h
        rw [hexDigitU_toNat (by omega)]
        split <;> omega

theorem quote_plus_chars (s : String) :
    ∀ ch ∈ (quote_plus s).data, ch ≠ '&' ∧ ch ≠ '=' ∧ ch ≠ '?' := by
  intro ch hch
  have : ch.toNat ≠ 38 ∧ ch.toNat ≠ 61 ∧ ch.toNat ≠ 63 := by
    simp only [quote_plus, List.mem_flatMap] at hch
    rcases hch with ⟨b, hb, hch⟩
    rcases hb with ⟨c, _, hbc⟩
    exact quoteByte_chars (utf8Bytes_lt c b hbc) ch hch
  exact ⟨char_ne_of_toNat_ne this.1, char_ne_of_toNat_ne this.2.1,
    char_ne_of_toNat_ne this.2.2⟩

/-- Characters whose `quote_plus` image is themselves (`safeByte` ASCII). -/
theorem quote_plus_of_safe (s : String)
    (h : ∀ c ∈ s.data, safeByte c.toNat = true) : quote_plus s = s := by
  unfold quote_plus
  have : ∀ l : List Char, (∀ c ∈ l, safeByte c.toNat = true) →
      (l.flatMap utf8Bytes).flatMap quoteByte = l := by
    intro l
    induction l with
    | nil => intro _; rfl
    | cons c rest ih =>
      intro hl
      have hc := hl c (List.mem_cons_self _ _)
      have hlt : c.toNat < 128 := by
        unfold safeByte at hc
        simp only [Bool.or_eq_true, Bool.and_eq_true, decide_eq_true_eq] at hc
        omega
      have h8 : utf8Bytes c = [c.toNat] := by
        unfold utf8Bytes
        rw [if_pos hlt]
      simp only [List.flatMap_cons, h8]
      have hq : quoteByte c.toNat = [c] := by
        unfold quoteByte
        rw [if_pos hc, Char.ofNat_toNat]
      simp only [List.singleton_append, List.flatMap_cons, hq]
      rw [ih (fun x hx => hl x (List.mem_cons_of_mem _ hx))]

  rw [this s.data h]

/-! ## Decimal digits are safe characters -/

theorem digitChar_isDigit {d : Nat} (h : d < 10) :
    isDigitB (digitChar d) = true := by
  unfold isDigitB digitChar
  rw [toNat_ofNat_of_valid (by omega)]
  simp only [Bool.and_eq_true, decide_eq_true_eq]
  omega

theorem natToDecFuel_digits :
    ∀ (fuel n : Nat), n ≤ fuel + 9 → ∀ c ∈ natToDecFuel fuel n, isDigitB c = true := by
  intro fuel
  induction fuel with
  | zero =>
    intro n hn c hc
    simp only [natToDecFuel, List.mem_singleton] at hc
    subst hc
    exact digitChar_isDigit (by omega)
  | succ fuel ih =>
    intro n hn c hc
    simp only [natToDecFuel] at hc
    split at hc
    · next h10 =>
      simp only [List.mem_singleton] at hc
      subst hc
      exact digitChar_isDigit h10
    · rcases List.mem_append.mp hc with h1 | h1
      · exact ih (n / 10) (by omega) c h1
      · simp only [List.mem_singleton] at h1
        subst h1
        exact digitChar_isDigit (Nat.mod_lt _ (by omega))

theorem natToDec_digits (n : Nat) : ∀ c ∈ natToDec n, isDigitB c = true :=
  natToDecFuel_digits n n (by omega)

theorem isDigitB_safe {c : Char} (h : isDigitB c = true) :
    safeByte c.toNat = true := by
  unfold isDigitB at h
  unfold safeByte
  simp only [Bool.and_eq_true, decide_eq_true_eq] at h
  simp only [Bool.or_eq_true, Bool.and_eq_true, decide_eq_true_eq]
  omega

theorem pyInt_safe (v : Int) : ∀ c ∈ (pyInt v).data, safeByte c.toNat = true := by
  intro c hc
  cases v with
  | ofNat n =>
    simp only [pyInt, pyNat] at hc
    exact isDigitB_safe (natToDec_digits n c hc)
  | negSucc n =>
    simp only [pyInt, pyNat, String.data_append] at hc
    rcases List.mem_append.mp hc with h1 | h1
    · simp only [show ("-" : String).data = ['-'] from rfl,
        List.mem_singleton] at h1
      subst h1
      decide
    · exact isDigitB_safe (natToDec_digits (n + 1) c h1)

theorem quote_plus_pyInt (v : Int) : quote_plus (pyInt v) = pyInt v :=
  quote_plus_of_safe _ (pyInt_safe v)

/-! ## Reading the `type` query parameter off a built download URL -/

theorem build_download_url_data (base p f : String) (v : Int) :
    (build_download_url base p f v).data =
      (base.data ++ "/Home/Download".data) ++ '?' ::
        (("path".data ++ '=' :: (quote_plus p).data) ++ '&' ::
         (("fileName".data ++ '=' :: (quote_plus f).data) ++ '&' ::
          ("type".data ++ '=' :: (quote_plus (pyInt v)).data))) := by
  unfold build_download_url urlencode
  simp only [List.map_cons, List.map_nil]
  rw [show quote_plus "path" = "path" from by decide,
    show quote_plus "fileName" = "fileName" from by decide,
    show quote_plus "type" = "type" from by decide]
  rw [show ("&" : String).intercalate
      ["path" ++ "=" ++ quote_plus p, "fileName" ++ "=" ++ quote_plus f,
        "type" ++ "=" ++ quote_plus (pyInt v)] =
      "path" ++ "=" ++ quote_plus p ++ "&" ++ ("fileName" ++ "=" ++ quote_plus f)
        ++ "&" ++ ("type" ++ "=" ++ quote_plus (pyInt v)) from rfl]
  simp only [String.data_append, List.append_assoc]
  simp [List.append_assoc]

theorem getQueryParam_build (base p f : String) (v : Int)
    (hb : ∀ c ∈ base.data, c ≠ '?') :
    getQueryParam (build_download_url base p f v) "type" = some (pyInt v) := by
  have hk1ns : ∀ c ∈ "path".data ++ '=' :: (quote_plus p).data, c ≠ '&' := by
    have hlit : ∀ c ∈ "path".data, c ≠ '&' := by decide
    intro c hc
    rcases List.mem_append.mp hc with h | h
    · exact hlit c h
    · rcases List.mem_cons.mp h with h | h
      · subst h
        decide
      · exact (quote_plus_chars p c h).1
  have hk2ns : ∀ c ∈ "fileName".data ++ '=' :: (quote_plus f).data, c ≠ '&' := by
    have hlit : ∀ c ∈ "fileName".data, c ≠ '&' := by decide
    intro c hc
    rcases List.mem_append.mp hc with h | h
    · exact hlit c h
    · rcases List.mem_cons.mp h with h | h
      · subst h
        decide
      · exact (quote_plus_chars f c h).1
  have hk3ns : ∀ c ∈ "type".data ++ '=' :: (quote_plus (pyInt v)).data, c ≠ '&' := by
    have hlit : ∀ c ∈ "type".data, c ≠ '&' := by decide
    intro c hc
    rcases List.mem_append.mp hc with h | h
    · exact hlit c h
    · rcases List.mem_cons.mp h with h | h
      · subst h
        decide
      · exact (quote_plus_chars (pyInt v) c h).1
  unfold getQueryParam
  simp only []
  rw [build_download_url_data]
  have h1 : ((((base.data ++ "/Home/Download".data) ++ '?' ::
      (("path".data ++ '=' :: (quote_plus p).data) ++ '&' ::
       (("fileName".data ++ '=' :: (quote_plus f).data) ++ '&' ::
        ("type".data ++ '=' :: (quote_plus (pyInt v)).data)))).dropWhile
      (fun c => c ≠ '?')).drop 1) =
      ("path".data ++ '=' :: (quote_plus p).data) ++ '&' ::
       (("fileName".data ++ '=' :: (quote_plus f).data) ++ '&' ::
        ("type".data ++ '=' :: (quote_plus (pyInt v)).data)) := by
    rw [dropWhile_append_of_all]
    · rw [List.dropWhile_cons]
      simp
    · have hlit : ∀ c ∈ "/Home/Download".data, decide (c ≠ '?') = true := by
        decide
      intro c hc
      rcases List.mem_append.mp hc with h | h
      · simpa using hb c h
      · exact hlit c h
  rw [h1]
  have h2 : splitOnChar '&'
      (("path".data ++ '=' :: (quote_plus p).data) ++ '&' ::
       (("fileName".data ++ '=' :: (quote_plus f).data) ++ '&' ::
        ("type".data ++ '=' :: (quote_plus (pyInt v)).data))) =
      ["path".data ++ '=' :: (quote_plus p).data,
       "fileName".data ++ '=' :: (quote_plus f).data,
       "type".data ++ '=' :: (quote_plus (pyInt v)).data] := by
    unfold splitOnChar
    rw [splitGo_append_sep '&' _ [] _ hk1ns]
    rw [splitGo_append_sep '&' _ [] _ hk2ns]
    rw [splitGo_no_sep '&' _ [] hk3ns]
    simp
  rw [h2]
  have hpair : ∀ (kw : String) (val : String),
      (∀ c ∈ kw.data, c ≠ '=') →
      pairOfChunk (kw.data ++ '=' :: val.data) = (kw, val) := by
    intro kw val hkw
    unfold pairOfChunk
    rw [takeWhile_append_of_all _ _ (fun c hc => by simpa using hkw c hc)]
    rw [dropWhile_append_of_all _ _ (fun c hc => by simpa using hkw c hc)]
    rw [List.takeWhile_cons, List.dropWhile_cons]
    simp
  simp only [List.map_cons, List.map_nil,
    hpair "path" (quote_plus p) (by decide),
    hpair "fileName" (quote_plus f) (by decide),
    hpair "type" (quote_plus (pyInt v)) (by decide)]
  simp [List.lookup, quote_plus_pyInt]

theorem isGood_typeCode {d : RawRecord} (h : isGood d = true) :
    ∃ tc : Int, d.TypeCode = some tc ∧ tcInt d.TypeCode = tc := by
  cases ht : d.TypeCode with
  | some n =>
    exact ⟨n, rfl, rfl⟩
  | none =>
    exfalso
    unfold isGood get_file_extension supportedExt at h
    rw [ht] at h
    simp at h

theorem pd_mkEntry_url (dl : DlOracle) (d : RawRecord) (idx : Nat)
    (cfg : Config) :
    (ProcessDownload.mkEntry dl d idx cfg).download_url =
      build_download_url cfg.base_url ((d.PathForWeb).getD "")
        ((d.FileName).getD "") (tcInt d.TypeCode) := rfl

theorem u_mkEntry_url (dl : DlOracle) (d : RawRecord) (seq : Nat)
    (cfg : Config) :
    (Utils.mkEntry dl d seq cfg).download_url =
      build_download_url cfg.base_url ((d.PathForWeb).getD "")
        ((d.FileName).getD "") 4 := rfl

theorem u_mem_mkEntry (dl : DlOracle) (cfg : Config) :
    ∀ (docs : List RawRecord) (seq : Nat) (e : PDoc),
      e ∈ Utils.processFrom dl cfg seq docs →
      ∃ (d : RawRecord) (s : Nat), e = Utils.mkEntry dl d s cfg := by
  intro docs
  induction docs with
  | nil => intro seq e h; simp [Utils.processFrom] at h
  | cons d rest ih =>
    intro seq e h
    rw [u_processFrom_cons] at h
    by_cases hg : isGood d = true
    · simp only [hg, if_true] at h
      rcases List.mem_cons.mp h with h1 | h1
      · exact ⟨d, seq, h1⟩
      · exact ih (seq + 1) e h1
    · simp only [Bool.not_eq_true] at hg
      simp only [hg, Bool.false_eq_true, if_false] at h
      exact ih seq e h

/-- C3 counterexample: the `Utils` pipeline resolves a docx record (type
code 3) to a download URL whose `type` query parameter is `"4"`, not the
record's own code `"3"` — `utils.process_documents` calls
`build_download_url(..., type_code=4)` regardless of the record. -/
theorem c3_counterexample :
    (Utils.process_documents dlOk [rec_docx] cfg0).map
      (fun e => getQueryParam e.download_url "type") = [some "4"] ∧
    rec_docx.TypeCode = some 3 ∧ pyInt 3 = "3" ∧ ("3" : String) ≠ "4" :=
  ⟨by decide, by decide, by decide, by decide⟩

/-- C3 amended: in the `process_download` variant every resolved
document's URL carries the record's own type code as its `type` query
parameter (and the URL is the configured base followed by
`/Home/Download?` with percent-encoded `path`, `fileName`, `type`); in
the `utils` variant the `type` parameter is always `"4"`.  The base-URL
hypothesis says the configured base contains no `?` of its own. -/
theorem c3_type_param_amended :
    (∀ (dl : DlOracle) (cfg : Config) (d : RawRecord) (idx : Nat) (e : PDoc),
      (∀ c ∈ cfg.base_url.data, c ≠ '?') →
      ProcessDownload.process_single_document dl d idx cfg = some e →
      ∃ tc : Int, d.TypeCode = some tc ∧
        getQueryParam e.download_url "type" = some (pyInt tc)) ∧
    (∀ (dl : DlOracle) (cfg : Config) (docs : List RawRecord) (e : PDoc),
      (∀ c ∈ cfg.base_url.data, c ≠ '?') →
      e ∈ Utils.process_documents dl docs cfg →
      getQueryParam e.download_url "type" = some "4") := by
  constructor
  · intro dl cfg d idx e hb he
    rw [psd_eq] at he
    by_cases hg : isGood d = true
    · rw [if_pos hg] at he
      have he' : e = ProcessDownload.mkEntry dl d idx cfg :=
        (Option.some.injEq _ _ ▸ he).symm
      obtain ⟨tc, htc, htc2⟩ := isGood_typeCode hg
      refine ⟨tc, htc, ?_⟩
      rw [he', pd_mkEntry_url, htc2]
      exact getQueryParam_build _ _ _ tc hb
    · rw [if_neg hg] at he
      exact absurd he (by simp)
  · intro dl cfg docs e hb he
    obtain ⟨d, s, he'⟩ := u_mem_mkEntry dl cfg docs 1 e he
    rw [he', u_mkEntry_url]
    rw [show ("4" : String) = pyInt 4 from rfl]
    exact getQueryParam_build _ _ _ 4 hb

theorem c3_type_param_amended_witness :
    (∃ tc : Int, rec_pdf.TypeCode = some tc ∧
      getQueryParam pd_entry0.download_url "type" = some (pyInt tc)) ∧
    getQueryParam u_entry0.download_url "type" = some "4" :=
  ⟨c3_type_param_amended.1 dlOk cfg0 rec_pdf 1 pd_entry0 (by decide) (by decide),
   c3_type_param_amended.2 dlOk cfg0 [rec_docx] u_entry0 (by decide) (by decide)⟩

/-! ## Position of entries in the `Utils` pipeline output -/

theorem u_processFrom_getElem (dl : DlOracle) (cfg : Config) :
    ∀ (docs : List RawRecord) (seq i : Nat),
      (Utils.processFrom dl cfg seq docs)[i]? =
        ((docs.filter isGood)[i]?).map
          (fun r => Utils.mkEntry dl r (seq + i) cfg) := by
  intro docs
  induction docs with
  | nil => intro seq i; simp [Utils.processFrom]
  | cons d rest ih =>
    intro seq i
    rw [u_processFrom_cons, List.filter_cons]
    by_cases hg : isGood d = true
    · simp only [hg, if_true]
      cases i with
      | zero => simp
      | succ i =>
        simp only [List.getElem?_cons_succ]
        rw [ih (seq + 1) i]
        have : seq + 1 + i = seq + (i + 1) := by omega
        rw [this]
    · simp only [Bool.not_eq_true] at hg
      simp only [hg, Bool.false_eq_true, if_false]
      exact ih seq i

/-- C4 counterexample: a batch `[unsupported, good]` processed by the
`process_download` variant produces exactly one document, but its
filename carries sequence number `0002` (the raw 1-based position of the
good record), not `0001` — so the numbers are not `1..n` over processed
documents when records are skipped. -/
theorem c4_counterexample :
    (ProcessDownload.process_documents dlOk [rec_unsupported, rec_pdf]
        cfg0).map (fun e => e.filename) = ["100122_2022-04-15_0002"] ∧
    (ProcessDownload.process_documents dlOk [rec_unsupported, rec_pdf]
        cfg0).length = 1 ∧
    pad4 1 = "0001" ∧ pad4 2 = "0002" ∧
    ("100122_2022-04-15_0002" : String) ≠ "100122_2022-04-15_0001" :=
  ⟨by decide, by decide, by decide, by decide, by decide⟩

/-- C4 amended: the dense 1-based counter is a property of the
`utils.process_documents` variant only — its `i`-th produced entry (0
based) is exactly the entry built from the `i`-th surviving record with
sequence number `i + 1`, so the numbers used in filenames are `1..n`
over processed documents.  In the `process_download` variant the number
in the filename is the record's raw 1-based position in the batch
(`enumerate(documents, 1)`), which skips create gaps in. -/
theorem c4_sequence_amended :
    (∀ (dl : DlOracle) (cfg : Config) (docs : List RawRecord) (i : Nat),
      (Utils.process_documents dl docs cfg)[i]? =
        ((docs.filter isGood)[i]?).map
          (fun r => Utils.mkEntry dl r (i + 1) cfg)) ∧
    (∀ (dl : DlOracle) (d : RawRecord) (seq : Nat) (cfg : Config),
      (Utils.mkEntry dl d seq cfg).filename =
        sanitize_filename ((d.CaseNum).getD ("case_" ++ pyNat seq) ++ "_" ++
          parse_ms_date ((d.VerdictDt).getD "") ++ "_" ++ pad4 seq)) ∧
    (∀ (dl : DlOracle) (cfg : Config) (d : RawRecord) (idx : Nat) (e : PDoc),
      ProcessDownload.process_single_document dl d idx cfg = some e →
      e.filename =
        sanitize_filename ((d.CaseNum).getD ("case_" ++ pyNat idx) ++ "_" ++
          parse_ms_date ((d.VerdictDt).getD "") ++ "_" ++ pad4 idx)) := by
  refine ⟨?_, ?_, ?_⟩
  · intro dl cfg docs i
    unfold Utils.process_documents
    rw [u_processFrom_getElem dl cfg docs 1 i]
    have : 1 + i = i + 1 := by omega
    rw [this]
  · intro dl d seq cfg
    rfl
  · intro dl cfg d idx e he
    rw [psd_eq] at he
    by_cases hg : isGood d = true
    · rw [if_pos hg] at he
      have he' : e = ProcessDownload.mkEntry dl d idx cfg :=
        (Option.some.injEq _ _ ▸ he).symm
      rw [he']
      rfl
    · rw [if_neg hg] at he
      exact absurd he (by simp)

theorem c4_sequence_amended_witness :
    (Utils.process_documents dlOk [rec_unsupported, rec_docx] cfg0)[0]? =
      some (Utils.mkEntry dlOk rec_docx 1 cfg0) ∧
    pd_entry_idx2.filename =
      sanitize_filename ((rec_pdf.CaseNum).getD ("case_" ++ pyNat 2) ++ "_" ++
        parse_ms_date ((rec_pdf.VerdictDt).getD "") ++ "_" ++ pad4 2) := by
  constructor
  · have h := c4_sequence_amended.1 dlOk cfg0 [rec_unsupported, rec_docx] 0
    rw [h]
    decide
  · exact c4_sequence_amended.2.2 dlOk cfg0 rec_pdf 2 pd_entry_idx2 (by decide)

/-! ## Digit-run and length lemmas for the ISO-8601 checker -/

theorem matchLit_cons (ch : Char) (l : List Char) :
    matchLit ch (ch :: l) = some l := by
  simp [matchLit]

theorem matchDigits_exact :
    ∀ (l rest : List Char), (∀ c ∈ l, isDigitB c = true) →
      matchDigits l.length (l ++ rest) = some rest := by
  intro l
  induction l with
  | nil => intro rest _; rfl
  | cons c tl ih =>
    intro rest h
    simp only [List.length_cons, List.cons_append, matchDigits]
    rw [if_pos (h c (List.mem_cons_self _ _))]
    exact ih rest (fun x hx => h x (List.mem_cons_of_mem _ hx))

theorem padLeft_digits {w : Nat} {l : List Char}
    (h : ∀ c ∈ l, isDigitB c = true) :
    ∀ c ∈ padLeft w l, isDigitB c = true := by
  intro c hc
  rcases List.mem_append.mp hc with h1 | h1
  · rw [List.eq_of_mem_replicate h1]
    decide
  · exact h c h1

theorem padLeft_length {w : Nat} {l : List Char} (h : l.length ≤ w) :
    (padLeft w l).length = w := by
  simp [padLeft]
  omega

theorem natToDecFuel_len :
    ∀ (fuel n k : Nat), n ≤ fuel + 9 → n < 10 ^ k → 1 ≤ k →
      (natToDecFuel fuel n).length ≤ k := by
  intro fuel
  induction fuel with
  | zero =>
    intro n k _ _ hk
    simp only [natToDecFuel, List.length_cons, List.length_nil]
    omega
  | succ fuel ih =>
    intro n k hn hnk hk
    simp only [natToDecFuel]
    split
    · simp only [List.length_cons, List.length_nil]
      omega
    · next h10 =>
      rcases k with _ | _ | k
      · omega
      · exfalso
        norm_num at hnk
        omega
      · rw [List.length_append]
        have hdiv : n / 10 < 10 ^ (k + 1) := by
          rw [Nat.div_lt_iff_lt_mul (by norm_num)]
          calc n < 10 ^ (k + 2) := hnk
            _ = 10 ^ (k + 1) * 10 := by ring
        have := ih (n / 10) (k + 1) (by omega) hdiv (by omega)
        simp only [List.length_cons, List.length_nil]
        omega

theorem natToDec_len {n k : Nat} (hnk : n < 10 ^ k) (hk : 1 ≤ k) :
    (natToDec n).length ≤ k :=
  natToDecFuel_len n n k (by omega) hnk hk

theorem pad2_matches {n : Nat} (h : n ≤ 99) (rest : List Char) :
    matchDigits 2 ((pad2 n).data ++ rest) = some rest := by
  have hlen : (pad2 n).data.length = 2 :=
    padLeft_length (natToDec_len (by norm_num; omega) (by norm_num))
  have := matchDigits_exact (pad2 n).data rest
    (padLeft_digits (natToDec_digits n))
  rw [hlen] at this
  exact this

theorem pad4_matches {n : Nat} (h : n ≤ 9999) (rest : List Char) :
    matchDigits 4 ((pad4 n).data ++ rest) = some rest := by
  have hlen : (pad4 n).data.length = 4 :=
    padLeft_length (natToDec_len (by norm_num; omega) (by norm_num))
  have := matchDigits_exact (pad4 n).data rest
    (padLeft_digits (natToDec_digits n))
  rw [hlen] at this
  exact this

theorem pad6_matches {n : Nat} (h : n ≤ 999999) (rest : List Char) :
    matchDigits 6 ((pad6 n).data ++ rest) = some rest := by
  have hlen : (pad6 n).data.length = 6 :=
    padLeft_length (natToDec_len (by norm_num; omega) (by norm_num))
  have := matchDigits_exact (pad6 n).data rest
    (padLeft_digits (natToDec_digits n))
  rw [hlen] at this
  exact this

theorem isoformat_valid (d : PyDatetime) (hy : d.year ≤ 9999)
    (hmo : d.month ≤ 99) (hd : d.day ≤ 99) (hh : d.hour ≤ 99)
    (hmi : d.minute ≤ 99) (hs : d.second ≤ 99)
    (hus : d.microsecond ≤ 999999) :
    specIso8601UTC (isoformat d ++ "Z") = true := by
  by_cases hms : d.microsecond = 0
  · have hdata : (isoformat d ++ "Z").data =
        (pad4 d.year).data ++ '-' :: ((pad2 d.month).data ++ '-' ::
          ((pad2 d.day).data ++ 'T' :: ((pad2 d.hour).data ++ ':' ::
           ((pad2 d.minute).data ++ ':' ::
            ((pad2 d.second).data ++ ['Z']))))) := by
      simp [isoformat, hms, String.data_append, List.append_assoc]
    unfold specIso8601UTC
    rw [hdata]
    rw [pad4_matches hy, Option.some_bind, matchLit_cons, Option.some_bind,
      pad2_matches hmo, Option.some_bind, matchLit_cons, Option.some_bind,
      pad2_matches hd, Option.some_bind, matchLit_cons, Option.some_bind,
      pad2_matches hh, Option.some_bind, matchLit_cons, Option.some_bind,
      pad2_matches hmi, Option.some_bind, matchLit_cons, Option.some_bind,
      pad2_matches hs]
    rfl
  · have hdata : (isoformat d ++ "Z").data =
        (pad4 d.year).data ++ '-' :: ((pad2 d.month).data ++ '-' ::
          ((pad2 d.day).data ++ 'T' :: ((pad2 d.hour).data ++ ':' ::
           ((pad2 d.minute).data ++ ':' ::
            ((pad2 d.second).data ++ '.' ::
             ((pad6 d.microsecond).data ++ ['Z'])))))) := by
      simp [isoformat, hms, String.data_append, List.append_assoc]
    unfold specIso8601UTC
    rw [hdata]
    rw [pad4_matches hy, Option.some_bind, matchLit_cons, Option.some_bind,
      pad2_matches hmo, Option.some_bind, matchLit_cons, Option.some_bind,
      pad2_matches hd, Option.some_bind, matchLit_cons, Option.some_bind,
      pad2_matches hh, Option.some_bind, matchLit_cons, Option.some_bind,
      pad2_matches hmi, Option.some_bind, matchLit_cons, Option.some_bind,
      pad2_matches hs]
    simp only []
    rw [pad6_matches hus]
    rfl

/-- C9: the search payload builder is a pure function of the supplied
date range — equal inputs give an identical payload mapping, and the
embedding takes no clock input, so no current-time stamp varies between
calls (the `translationPublish*` fields are fixed literals); the
payload's `document.PublishFrom` / `document.PublishTo` are exactly the
supplied start and end dates serialized as `isoformat() + "Z"`; and for
datetimes with in-range fields that serialization is a valid ISO-8601
string with explicit UTC designator. -/
theorem c9_payload_deterministic_iso :
    (∀ s1 e1 s2 e2 : PyDatetime, s1 = s2 → e1 = e2 →
      prepare_search_payload s1 e1 = prepare_search_payload s2 e2) ∧
    (∀ sd ed : PyDatetime,
      (jget (prepare_search_payload sd ed) "document").bind
        (fun dj => jget dj "PublishFrom") =
          some (Json.str (isoformat sd ++ "Z")) ∧
      (jget (prepare_search_payload sd ed) "document").bind
        (fun dj => jget dj "PublishTo") =
          some (Json.str (isoformat ed ++ "Z"))) ∧
    (∀ sd : PyDatetime, sd.year ≤ 9999 → sd.month ≤ 99 → sd.day ≤ 99 →
      sd.hour ≤ 99 → sd.minute ≤ 99 → sd.second ≤ 99 →
      sd.microsecond ≤ 999999 →
      specIso8601UTC (isoformat sd ++ "Z") = true) := by
  refine ⟨?_, ?_, ?_⟩
  · intro s1 e1 s2 e2 h1 h2
    rw [h1, h2]
  · intro sd ed
    exact ⟨rfl, rfl⟩
  · intro sd h1 h2 h3 h4 h5 h6 h7
    exact isoformat_valid sd h1 h2 h3 h4 h5 h6 h7

theorem c9_payload_deterministic_iso_witness :
    specIso8601UTC (isoformat ⟨2024, 4, 15, 0, 0, 0, 0⟩ ++ "Z") = true :=
  c9_payload_deterministic_iso.2.2 ⟨2024, 4, 15, 0, 0, 0, 0⟩ (by decide)
    (by decide) (by decide) (by decide) (by decide) (by decide) (by decide)

end WebScraping
